import Mathlib

/-
Verification of the appointment-tracker core (src/app.py).

Python concrete values are embedded as follows: `datetime.date` objects
become the structure `PDate` below (proleptic Gregorian calendar, as in
CPython's `datetime` module); Python `str` values become `List Char`;
Python `int` becomes `Int`; Python `None` becomes `Option.none`.
-/

/-- A calendar date, mirroring a Python `datetime.date` value. -/
@[ext]
structure PDate where
  year : Nat
  month : Nat
  day : Nat
deriving DecidableEq

/-- Leap-year test, as in CPython `datetime._is_leap` /
`calendar.isleap`: `year % 4 == 0 and (year % 100 != 0 or year % 400 == 0)`. -/
def isLeap (y : Nat) : Bool :=
  y % 4 == 0 && (y % 100 != 0 || y % 400 == 0)

/-- Length of a month, as in CPython `datetime._days_in_month`
(`_DAYS_IN_MONTH` table plus the February leap adjustment).  The value for
a month index outside 1..12 is irrelevant: Python would raise there, and
all uses below stay in range. -/
def daysInMonth (y m : Nat) : Nat :=
  if m = 2 then (if isLeap y then 29 else 28)
  else if m = 4 ∨ m = 6 ∨ m = 9 ∨ m = 11 then 30
  else 31

/-- Days in the year before the first of month `m`, as in CPython
`datetime._days_before_month`: the `_DAYS_BEFORE_MONTH` cumulative table
plus a leap adjustment after February. -/
def daysBeforeMonth (y m : Nat) : Nat :=
  (if 2 < m ∧ isLeap y then 1 else 0) +
  (match m with
   | 1 => 0 | 2 => 31 | 3 => 59 | 4 => 90 | 5 => 120 | 6 => 151
   | 7 => 181 | 8 => 212 | 9 => 243 | 10 => 273 | 11 => 304 | 12 => 334
   | _ => 0)

/-- Days before January 1st of year `y`, as in CPython
`datetime._days_before_year`. -/
def daysBeforeYear (y : Nat) : Nat :=
  365 * (y - 1) + (y - 1) / 4 - (y - 1) / 100 + (y - 1) / 400

/-- Proleptic-Gregorian ordinal of a date (day 1 is 0001-01-01), as in
CPython `date.toordinal`. -/
def toordinal (d : PDate) : Nat :=
  daysBeforeYear d.year + daysBeforeMonth d.year d.month + d.day

/-- Structural soundness of a date: month and day in calendar range and a
positive year. -/
def PDate.Sound (d : PDate) : Prop :=
  1 ≤ d.year ∧ 1 ≤ d.month ∧ d.month ≤ 12 ∧ 1 ≤ d.day ∧ d.day ≤ daysInMonth d.year d.month

/-- A value representable as a Python `datetime.date`: sound and within
Python's year range 1..9999. -/
def PDate.Valid (d : PDate) : Prop :=
  d.Sound ∧ d.year ≤ 9999

instance (d : PDate) : Decidable d.Sound := by
  unfold PDate.Sound
  infer_instance

instance (d : PDate) : Decidable d.Valid := by
  unfold PDate.Valid
  infer_instance

/-- Python `date` comparison `a < b`: lexicographic on (year, month, day). -/
def dateLt (a b : PDate) : Prop :=
  a.year < b.year ∨ (a.year = b.year ∧
    (a.month < b.month ∨ (a.month = b.month ∧ a.day < b.day)))

instance (a b : PDate) : Decidable (dateLt a b) := by
  unfold dateLt
  infer_instance

/-- Python `date` comparison `a <= b`. -/
def dateLe (a b : PDate) : Prop :=
  dateLt a b ∨ a = b

instance (a b : PDate) : Decidable (dateLe a b) := by
  unfold dateLe
  infer_instance

/-- Adding `k` calendar months to a date with the day-of-month clamped to
the target month's length, as `dateutil.relativedelta` does when a
months-only delta is added to a date (`__radd__`: normalise year/month by
floor divmod, then `day = min(day, monthrange(year, month)[1])`).  Python
raises for a resulting year outside 1..9999 (an exception
`calculate_wait_time` would swallow); that case is unreachable in every
use proved below, and the `Int.toNat` clamps are exact there. -/
def addMonths (d : PDate) (k : Int) : PDate :=
  let mi : Int := (d.year : Int) * 12 + (d.month : Int) - 1 + k
  let y : Nat := (mi.fdiv 12).toNat
  let m : Nat := (mi.fmod 12 + 1).toNat
  ⟨y, m, min d.day (daysInMonth y m)⟩

/-- The initial month estimate of `relativedelta(e, s)`:
`(e.year - s.year) * 12 + (e.month - s.month)`. -/
def rawMonthDiff (s e : PDate) : Int :=
  ((e.year : Int) - (s.year : Int)) * 12 + ((e.month : Int) - (s.month : Int))

/-- The correction loop of `relativedelta(e, s)` for `s < e`: starting
from the raw month estimate, decrement while `e < s + months`.  The
argument is the starting estimate; for `s < e` the loop never inspects
negative counts, so a `Nat` counter is exact. -/
def rdMonthsLoop (s e : PDate) : Nat → Nat
  | 0 => 0
  | m + 1 => if dateLt e (addMonths s ((m : Int) + 1)) then rdMonthsLoop s e m else m + 1

/-- The total month count `rd.years * 12 + rd.months` produced by
`relativedelta(e, s)` for dates `s < e`. -/
def relativedeltaMonths (s e : PDate) : Nat :=
  rdMonthsLoop s e (rawMonthDiff s e).toNat

/-- Embedding of `calculate_wait_time` (src/app.py lines 44-66).  The
`try/except` in the source can only fire on a date-range overflow inside
`relativedelta`, which is impossible for valid in-range inputs (the
intermediate date never passes `end_date`), so the embedding is total. -/
def calculate_wait_time (start_date end_date : Option PDate) : Option Int × Option Int :=
  match start_date, end_date with
  | some s, some e =>
    if dateLe e s then (some 0, some 0)
    else
      let total_months : Int := relativedeltaMonths s e
      let temp_date := addMonths s total_months
      let remaining_days : Int := (toordinal e : Int) - (toordinal temp_date : Int)
      if remaining_days < 0 then
        let tm : Int := total_months - 1
        let temp2 := addMonths s tm
        (some tm, some ((toordinal e : Int) - (toordinal temp2 : Int)))
      else
        (some total_months, some remaining_days)
  | _, _ => (none, none)

theorem fdiv_twelve (a : Int) : a.fdiv 12 = a / 12 :=
  Int.fdiv_eq_ediv a (by norm_num)

theorem fmod_twelve (a : Int) : a.fmod 12 = a % 12 :=
  Int.fmod_eq_emod a (by norm_num)

theorem addMonths_def (d : PDate) (k : Int) :
    addMonths d k =
      ⟨((((d.year : Int) * 12 + (d.month : Int) - 1 + k)) / 12).toNat,
       (((((d.year : Int) * 12 + (d.month : Int) - 1 + k)) % 12) + 1).toNat,
       min d.day (daysInMonth ((((d.year : Int) * 12 + (d.month : Int) - 1 + k)) / 12).toNat
         (((((d.year : Int) * 12 + (d.month : Int) - 1 + k)) % 12) + 1).toNat)⟩ := by
  simp [addMonths, fdiv_twelve, fmod_twelve]

theorem daysInMonth_pos (y m : Nat) : 1 ≤ daysInMonth y m := by
  unfold daysInMonth
  split_ifs <;> omega

theorem dateLt_asymm {a b : PDate} (h : dateLt a b) : ¬ dateLt b a := by
  unfold dateLt at *
  omega

theorem not_dateLe_of_dateLt {s e : PDate} (h : dateLt s e) : ¬ dateLe e s := by
  intro hle
  rcases hle with hlt | heq
  · exact dateLt_asymm h hlt
  · subst heq
    unfold dateLt at h
    omega

theorem addMonths_zero {d : PDate} (h : d.Sound) : addMonths d 0 = d := by
  obtain ⟨h1, h2, h3, h4, h5⟩ := h
  rw [addMonths_def]
  have hy : ((((d.year : Int) * 12 + (d.month : Int) - 1 + 0)) / 12).toNat = d.year := by
    omega
  have hm : (((((d.year : Int) * 12 + (d.month : Int) - 1 + 0)) % 12) + 1).toNat = d.month := by
    omega
  rw [hy, hm, Nat.min_eq_left h5]

theorem addMonths_sound {d : PDate} {k : Int} (h : d.Sound) (hk : 0 ≤ k) :
    (addMonths d k).Sound := by
  obtain ⟨h1, h2, h3, h4, h5⟩ := h
  rw [addMonths_def]
  refine ⟨?_, ?_, ?_, ?_, ?_⟩ <;> dsimp only
  · omega
  · omega
  · omega
  · exact Nat.le_min.mpr ⟨h4, daysInMonth_pos _ _⟩
  · exact Nat.min_le_right _ _

theorem rdMonthsLoop_not_lt {s e : PDate} (hs : s.Sound) (h : dateLt s e) :
    ∀ n, ¬ dateLt e (addMonths s ((rdMonthsLoop s e n : Nat) : Int))
  | 0 => by
    simpa [rdMonthsLoop, addMonths_zero hs] using dateLt_asymm h
  | n + 1 => by
    unfold rdMonthsLoop
    by_cases hc : dateLt e (addMonths s ((n : Int) + 1))
    · simpa [hc] using rdMonthsLoop_not_lt hs h n
    · have hcast : (((n + 1 : Nat) : Int)) = (n : Int) + 1 := by push_cast; ring
      simp [hc, hcast]

theorem daysBeforeMonth_step (y m : Nat) (h1 : 1 ≤ m) (h2 : m ≤ 11) :
    daysBeforeMonth y (m + 1) = daysBeforeMonth y m + daysInMonth y m := by
  interval_cases m <;> by_cases h : isLeap y = true <;>
    simp [daysBeforeMonth, daysInMonth, h]

theorem daysBeforeMonth_mono (y m n : Nat) (h1 : 1 ≤ m) (hmn : m ≤ n)
    (h2 : n ≤ 12) : daysBeforeMonth y m ≤ daysBeforeMonth y n := by
  have hm12 : m ≤ 12 := le_trans hmn h2
  by_cases h : isLeap y = true <;>
    (interval_cases m <;> interval_cases n <;> simp [daysBeforeMonth, h])

theorem year_days (y : Nat) :
    daysBeforeMonth y 12 + daysInMonth y 12 = if isLeap y then 366 else 365 := by
  by_cases h : isLeap y = true <;> simp [daysBeforeMonth, daysInMonth, h]

theorem isLeap_iff (y : Nat) :
    isLeap y = true ↔ (y % 4 = 0 ∧ (y % 100 ≠ 0 ∨ y % 400 = 0)) := by
  simp [isLeap]

set_option maxHeartbeats 1000000 in
theorem daysBeforeYear_succ (y : Nat) (h : 1 ≤ y) :
    daysBeforeYear (y + 1) = daysBeforeYear y + (if isLeap y then 366 else 365) := by
  by_cases hl : isLeap y = true
  · rw [if_pos hl]
    rw [isLeap_iff] at hl
    unfold daysBeforeYear
    omega
  · rw [if_neg hl]
    rw [isLeap_iff] at hl
    unfold daysBeforeYear
    omega

theorem daysBeforeYear_mono (y n : Nat) (h1 : 1 ≤ y) (h : y ≤ n) :
    daysBeforeYear y ≤ daysBeforeYear n := by
  induction n, h using Nat.le_induction with
  | base => exact le_refl _
  | succ n hn ih =>
    have := daysBeforeYear_succ n (le_trans h1 hn)
    split_ifs at this <;> omega

theorem toordinal_lt {a b : PDate} (ha : a.Sound) (hb : b.Sound) (h : dateLt a b) :
    toordinal a < toordinal b := by
  obtain ⟨ha1, ha2, ha3, ha4, ha5⟩ := ha
  obtain ⟨hb1, hb2, hb3, hb4, hb5⟩ := hb
  unfold toordinal
  unfold dateLt at h
  rcases h with hy | ⟨hy, hm | ⟨hm, hd⟩⟩
  · have e1 : daysBeforeMonth a.year a.month + a.day
        ≤ daysBeforeMonth a.year 12 + daysInMonth a.year 12 := by
      rcases Nat.lt_or_ge a.month 12 with hlt | hge
      · have s1 := daysBeforeMonth_step a.year a.month ha2 (by omega)
        have s2 := daysBeforeMonth_mono a.year (a.month + 1) 12 (by omega) (by omega) (by omega)
        omega
      · have hm12 : a.month = 12 := by omega
        rw [hm12] at ha5 ⊢
        omega
    have e2 := daysBeforeYear_succ a.year ha1
    have e4 := year_days a.year
    have e3 := daysBeforeYear_mono (a.year + 1) b.year (by omega) (by omega)
    split_ifs at e2 e4 <;> omega
  · have s1 := daysBeforeMonth_step a.year a.month ha2 (by omega)
    have s2 := daysBeforeMonth_mono a.year (a.month + 1) b.month (by omega) (by omega) hb3
    rw [← hy] at hb5 ⊢
    omega
  · rw [← hy, ← hm] at hb5 ⊢
    omega

theorem toordinal_le_of_not_dateLt {a b : PDate} (ha : a.Sound) (hb : b.Sound)
    (h : ¬ dateLt a b) : toordinal b ≤ toordinal a := by
  by_cases he : a = b
  · rw [he]
  · have hba : dateLt b a := by
      have hne : ¬(a.year = b.year ∧ a.month = b.month ∧ a.day = b.day) := by
        rintro ⟨e1, e2, e3⟩
        exact he (PDate.ext e1 e2 e3)
      unfold dateLt at *
      omega
    exact le_of_lt (toordinal_lt hb ha hba)

/-- C1: for every pair of valid calendar dates with start < end, if
`calculate_wait_time` returns `(m, d)` then both are non-negative and
advancing start by `m` clamped calendar months and then by `d` days (in
ordinal arithmetic) yields exactly end. -/
theorem wait_time_reconstruction (s e : PDate) (hs : s.Valid) (he : e.Valid)
    (hlt : dateLt s e) (m d : Int)
    (hw : calculate_wait_time (some s) (some e) = (some m, some d)) :
    0 ≤ m ∧ 0 ≤ d ∧ (toordinal (addMonths s m) : Int) + d = (toordinal e : Int) := by
  have hnle : ¬ dateLe e s := not_dateLe_of_dateLt hlt
  have hloop : ¬ dateLt e (addMonths s ((relativedeltaMonths s e : Nat) : Int)) :=
    rdMonthsLoop_not_lt hs.1 hlt (rawMonthDiff s e).toNat
  have hTsound : (addMonths s ((relativedeltaMonths s e : Nat) : Int)).Sound :=
    addMonths_sound hs.1 (Int.natCast_nonneg _)
  have hord : toordinal (addMonths s ((relativedeltaMonths s e : Nat) : Int)) ≤ toordinal e :=
    toordinal_le_of_not_dateLt he.1 hTsound hloop
  simp only [calculate_wait_time] at hw
  rw [if_neg hnle] at hw
  split_ifs at hw with hneg
  · exfalso
    omega
  · simp only [Prod.mk.injEq, Option.some.injEq] at hw
    obtain ⟨hm, hd⟩ := hw
    subst hm
    subst hd
    exact ⟨Int.natCast_nonneg _, by omega, by omega⟩

/-- C1 witness at the seeded record 2023-10-03 to 2025-12-16. -/
theorem wait_time_reconstruction_witness :
    (0 : Int) ≤ 26 ∧ (0 : Int) ≤ 13 ∧
      (toordinal (addMonths ⟨2023, 10, 3⟩ 26) : Int) + 13 = (toordinal ⟨2025, 12, 16⟩ : Int) :=
  wait_time_reconstruction ⟨2023, 10, 3⟩ ⟨2025, 12, 16⟩ (by decide) (by decide) (by decide)
    26 13 (by decide)

/-- C2: the worked example of the spec: elapsed(2023-10-03, 2025-12-16)
is 26 months and 13 days. -/
theorem calculate_wait_time_worked_example :
    calculate_wait_time (some ⟨2023, 10, 3⟩) (some ⟨2025, 12, 16⟩) = (some 26, some 13) := by
  decide

/-- C7: whenever start >= end, the calculator returns (0, 0). -/
theorem calculate_wait_time_clamp (s e : PDate) (h : dateLe e s) :
    calculate_wait_time (some s) (some e) = (some 0, some 0) := by
  simp only [calculate_wait_time, if_pos h]

/-- C7 witness at a pair of equal dates. -/
theorem calculate_wait_time_clamp_witness :
    dateLe ⟨2026, 2, 12⟩ ⟨2026, 2, 12⟩ ∧
      calculate_wait_time (some ⟨2026, 2, 12⟩) (some ⟨2026, 2, 12⟩) = (some 0, some 0) :=
  ⟨by decide, calculate_wait_time_clamp _ _ (by decide)⟩

/-- C8: an absent start or end date propagates to an absent result pair. -/
theorem calculate_wait_time_absence (x : Option PDate) :
    calculate_wait_time none x = (none, none) ∧ calculate_wait_time x none = (none, none) := by
  cases x <;> simp [calculate_wait_time]

/-- Test for an ASCII decimal digit character. -/
def isDig (c : Char) : Bool :=
  decide (48 ≤ c.toNat) && decide (c.toNat ≤ 57)

/-- Numeric value of an ASCII digit character. -/
def digVal (c : Char) : Nat :=
  c.toNat - 48

/-- The ASCII digit character for a value below ten. -/
def dig (n : Nat) : Char :=
  Char.ofNat (48 + n)

/-- The canonical `YYYY-MM-DD` character sequence produced by Python
`date.isoformat()`: zero-padded 4-digit year, 2-digit month and day. -/
def isoDigits (d : PDate) : List Char :=
  [dig (d.year / 1000), dig (d.year / 100 % 10), dig (d.year / 10 % 10), dig (d.year % 10),
   '-', dig (d.month / 10), dig (d.month % 10), '-', dig (d.day / 10), dig (d.day % 10)]

/-- Embedding of `to_iso` (src/app.py lines 33-34): `d.isoformat()` for a
date, and `d or ""` otherwise, which is the empty string on the `None`
inputs that occur in the program. -/
def to_iso (x : Option PDate) : List Char :=
  match x with
  | some d => isoDigits d
  | none => []

/-- Parse a ten-character canonical `YYYY-MM-DD` block, with the range
checks the `datetime.date` constructor performs (month 1..12, day within
the month, year at least 1; the year is at most 9999 because it has four
digits). -/
def num2 (a b : Char) : Nat :=
  10 * digVal a + digVal b

def num4 (a b c d : Char) : Nat :=
  1000 * digVal a + 100 * digVal b + 10 * digVal c + digVal d

def parseDate10 (cs : List Char) : Option PDate :=
  match cs with
  | [y1, y2, y3, y4, s1, m1, m2, s2, d1, d2] =>
    if isDig y1 && isDig y2 && isDig y3 && isDig y4 && s1 == '-' &&
        isDig m1 && isDig m2 && s2 == '-' && isDig d1 && isDig d2 then
      if 1 ≤ num4 y1 y2 y3 y4 ∧ 1 ≤ num2 m1 m2 ∧ num2 m1 m2 ≤ 12 ∧ 1 ≤ num2 d1 d2 ∧
          num2 d1 d2 ≤ daysInMonth (num4 y1 y2 y3 y4) (num2 m1 m2) then
        some ⟨num4 y1 y2 y3 y4, num2 m1 m2, num2 d1 d2⟩
      else none
    else none
  | _ => none

/-- The components of a time block `HH[:MM[:SS[.fff[fff]]]]`, per
CPython's `datetime._parse_hh_mm_ss_ff` (the reference implementation
used through Python 3.10): hours, optional colon-separated minutes and
seconds, and an optional fraction of exactly three or six digits after a
dot.  The reference implementation converts each two-character component
with `int`, which would also tolerate a space-padded digit; this model
requires plain digits, a fringe the program's data never reaches.  No
range checks happen here; the `datetime` constructor applies them. -/
def parseHMSF (t : List Char) : Option (Nat × Nat × Nat × Nat) :=
  match t with
  | [h1, h2] =>
    if isDig h1 && isDig h2 then some (num2 h1 h2, 0, 0, 0) else none
  | [h1, h2, ':', m1, m2] =>
    if isDig h1 && isDig h2 && isDig m1 && isDig m2 then
      some (num2 h1 h2, num2 m1 m2, 0, 0)
    else none
  | [h1, h2, ':', m1, m2, ':', s1, s2] =>
    if isDig h1 && isDig h2 && isDig m1 && isDig m2 && isDig s1 && isDig s2 then
      some (num2 h1 h2, num2 m1 m2, num2 s1 s2, 0)
    else none
  | [h1, h2, ':', m1, m2, ':', s1, s2, '.', f1, f2, f3] =>
    if isDig h1 && isDig h2 && isDig m1 && isDig m2 && isDig s1 && isDig s2 &&
        isDig f1 && isDig f2 && isDig f3 then
      some (num2 h1 h2, num2 m1 m2, num2 s1 s2,
        (100 * digVal f1 + 10 * digVal f2 + digVal f3) * 1000)
    else none
  | [h1, h2, ':', m1, m2, ':', s1, s2, '.', f1, f2, f3, f4, f5, f6] =>
    if isDig h1 && isDig h2 && isDig m1 && isDig m2 && isDig s1 && isDig s2 &&
        isDig f1 && isDig f2 && isDig f3 && isDig f4 && isDig f5 && isDig f6 then
      some (num2 h1 h2, num2 m1 m2, num2 s1 s2,
        (100 * digVal f1 + 10 * digVal f2 + digVal f3) * 1000
          + (100 * digVal f4 + 10 * digVal f5 + digVal f6))
    else none
  | _ => none

/-- Validity of everything after the date and its separator, per
CPython's `datetime._parse_isoformat_time`: a time block, optionally
followed by a UTC offset introduced at the first `-` or `+` of the
string.  The offset must be `HH:MM`, `HH:MM:SS` or `HH:MM:SS.ffffff`
and, via the `timezone` constructor, strictly shorter than 24 hours; the
time block's fields must pass the `datetime` constructor's range
checks. -/
def parseIsoTime (tstr : List Char) : Bool :=
  let tzPos : Option Nat :=
    match tstr.findIdx? (fun c => c == '-') with
    | some i => some i
    | none => tstr.findIdx? (fun c => c == '+')
  let timeOk : List Char → Bool := fun ts =>
    match parseHMSF ts with
    | some (h, m, s, _) => decide (h < 24) && decide (m < 60) && decide (s < 60)
    | none => false
  match tzPos with
  | none => timeOk tstr
  | some i =>
    timeOk (tstr.take i) &&
      (decide ((tstr.drop (i + 1)).length = 5 ∨ (tstr.drop (i + 1)).length = 8 ∨
        (tstr.drop (i + 1)).length = 15) &&
      match parseHMSF (tstr.drop (i + 1)) with
      | some (th, tm, ts, tf) =>
        decide ((th * 3600 + tm * 60 + ts) * 1000000 + tf < 86400000000)
      | none => false)

/-- Embedding of `parse_iso` (src/app.py lines 36-42): empty or `None`
input gives `None`, otherwise `datetime.fromisoformat(s).date()` with
every exception swallowed to `None`.  `fromisoformat` is modeled after
the documented grammar
`YYYY-MM-DD[*HH[:MM[:SS[.fff[fff]]]][+HH:MM[:SS[.ffffff]]]]` of the
CPython reference implementation (Lib/datetime.py through 3.10): the
first ten characters must parse as a date, character eleven is an
arbitrary separator, and the remainder, when present, must be a valid
time with an optional offset.  A length-eleven input is accepted with
its dangling separator ignored, as that implementation does.  Python
3.11+ additionally accepts compact and week forms (for example
`20231003`) and rejects a dangling separator: those edges are
version-dependent, and no theorem below exercises an input on which
supported versions disagree. -/
def parse_iso (s : List Char) : Option PDate :=
  if s = [] then none
  else
    (parseDate10 (s.take 10)).bind (fun d =>
      if s.length ≤ 11 then some d
      else if parseIsoTime (s.drop 11) then some d
      else none)

theorem isoDigits_length (d : PDate) : (isoDigits d).length = 10 := by
  simp [isoDigits]

theorem isoDigits_ne_nil (d : PDate) : isoDigits d ≠ [] := by
  simp [isoDigits]

theorem dig_digVal {c : Char} (h : isDig c = true) : dig (digVal c) = c := by
  simp only [isDig, Bool.and_eq_true, decide_eq_true_eq] at h
  unfold dig digVal
  rw [show 48 + (c.toNat - 48) = c.toNat by omega, Char.ofNat_toNat]

theorem digVal_dig {n : Nat} (h : n < 10) : digVal (dig n) = n := by
  interval_cases n <;> decide

theorem isDig_dig {n : Nat} (h : n < 10) : isDig (dig n) = true := by
  interval_cases n <;> decide

theorem digVal_lt_ten {c : Char} (h : isDig c = true) : digVal c < 10 := by
  simp only [isDig, Bool.and_eq_true, decide_eq_true_eq] at h
  unfold digVal
  omega

theorem daysInMonth_le (y m : Nat) : daysInMonth y m ≤ 31 := by
  unfold daysInMonth
  split_ifs <;> omega

theorem parseDate10_isoDigits (d : PDate) (h : d.Valid) :
    parseDate10 (isoDigits d) = some d := by
  obtain ⟨⟨h1, h2, h3, h4, h5⟩, h6⟩ := h
  have hdle : daysInMonth d.year d.month ≤ 31 := daysInMonth_le _ _
  have hy1 : d.year / 1000 < 10 := by omega
  have hy2 : d.year / 100 % 10 < 10 := by omega
  have hy3 : d.year / 10 % 10 < 10 := by omega
  have hy4 : d.year % 10 < 10 := by omega
  have hm1 : d.month / 10 < 10 := by omega
  have hm2 : d.month % 10 < 10 := by omega
  have hd1 : d.day / 10 < 10 := by omega
  have hd2 : d.day % 10 < 10 := by omega
  have ey : num4 (dig (d.year / 1000)) (dig (d.year / 100 % 10))
      (dig (d.year / 10 % 10)) (dig (d.year % 10)) = d.year := by
    unfold num4
    rw [digVal_dig hy1, digVal_dig hy2, digVal_dig hy3, digVal_dig hy4]
    omega
  have em : num2 (dig (d.month / 10)) (dig (d.month % 10)) = d.month := by
    unfold num2
    rw [digVal_dig hm1, digVal_dig hm2]
    omega
  have ed : num2 (dig (d.day / 10)) (dig (d.day % 10)) = d.day := by
    unfold num2
    rw [digVal_dig hd1, digVal_dig hd2]
    omega
  unfold isoDigits
  simp only [parseDate10]
  rw [isDig_dig hy1, isDig_dig hy2, isDig_dig hy3, isDig_dig hy4, isDig_dig hm1,
    isDig_dig hm2, isDig_dig hd1, isDig_dig hd2]
  simp only [beq_self_eq_true, Bool.and_self, Bool.and_true, Bool.true_and, if_true]
  rw [ey, em, ed]
  rw [if_pos ⟨h1, h2, h3, h4, h5⟩]

theorem parseDate10_sound {l : List Char} {d : PDate} (hp : parseDate10 l = some d) :
    d.Valid ∧ isoDigits d = l := by
  unfold parseDate10 at hp
  split at hp
  · rename_i y1 y2 y3 y4 s1 m1 m2 s2 d1 d2
    split_ifs at hp with hc hr
    · simp only [Bool.and_eq_true, beq_iff_eq] at hc
      obtain ⟨⟨⟨⟨⟨⟨⟨⟨⟨hcy1, hcy2⟩, hcy3⟩, hcy4⟩, hcs1⟩, hcm1⟩, hcm2⟩, hcs2⟩, hcd1⟩, hcd2⟩ := hc
      have by1 := digVal_lt_ten hcy1
      have by2 := digVal_lt_ten hcy2
      have by3 := digVal_lt_ten hcy3
      have by4 := digVal_lt_ten hcy4
      have bm1 := digVal_lt_ten hcm1
      have bm2 := digVal_lt_ten hcm2
      have bd1 := digVal_lt_ten hcd1
      have bd2 := digVal_lt_ten hcd2
      obtain ⟨r1, r2, r3, r4, r5⟩ := hr
      have hd : d = ⟨num4 y1 y2 y3 y4, num2 m1 m2, num2 d1 d2⟩ := (Option.some.inj hp).symm
      subst hd
      unfold num4 num2 at *
      constructor
      · exact ⟨⟨r1, r2, r3, r4, r5⟩, by dsimp only; omega⟩
      · unfold isoDigits
        dsimp only
        have q1 : (1000 * digVal y1 + 100 * digVal y2 + 10 * digVal y3 + digVal y4) / 1000
            = digVal y1 := by omega
        have q2 : (1000 * digVal y1 + 100 * digVal y2 + 10 * digVal y3 + digVal y4) / 100 % 10
            = digVal y2 := by omega
        have q3 : (1000 * digVal y1 + 100 * digVal y2 + 10 * digVal y3 + digVal y4) / 10 % 10
            = digVal y3 := by omega
        have q4 : (1000 * digVal y1 + 100 * digVal y2 + 10 * digVal y3 + digVal y4) % 10
            = digVal y4 := by omega
        have q5 : (10 * digVal m1 + digVal m2) / 10 = digVal m1 := by omega
        have q6 : (10 * digVal m1 + digVal m2) % 10 = digVal m2 := by omega
        have q7 : (10 * digVal d1 + digVal d2) / 10 = digVal d1 := by omega
        have q8 : (10 * digVal d1 + digVal d2) % 10 = digVal d2 := by omega
        rw [q1, q2, q3, q4, q5, q6, q7, q8, dig_digVal hcy1, dig_digVal hcy2,
          dig_digVal hcy3, dig_digVal hcy4, dig_digVal hcm1, dig_digVal hcm2,
          dig_digVal hcd1, dig_digVal hcd2, hcs1, hcs2]
  · exact absurd hp (by simp)

/-- A canonical date string in the sense of the spec: the encoding of
some valid concrete calendar date. -/
def IsCanonicalDateString (s : List Char) : Prop :=
  ∃ d : PDate, d.Valid ∧ to_iso (some d) = s

/-- C4: decoding the encoded canonical string of any valid concrete date
gives back the date: parse_iso (to_iso D) = D. -/
theorem iso_round_trip (d : PDate) (h : d.Valid) :
    parse_iso (to_iso (some d)) = some d := by
  have ht : (isoDigits d).take 10 = isoDigits d :=
    List.take_of_length_le (le_of_eq (isoDigits_length d))
  have hlen : (isoDigits d).length ≤ 11 := by
    rw [isoDigits_length]
    omega
  unfold to_iso parse_iso
  rw [if_neg (isoDigits_ne_nil d), ht, parseDate10_isoDigits d h]
  simp only [Option.some_bind]
  rw [if_pos hlen]

/-- C4 witness at the date 2023-10-03. -/
theorem iso_round_trip_witness :
    PDate.Valid ⟨2023, 10, 3⟩ ∧ parse_iso (to_iso (some ⟨2023, 10, 3⟩)) = some ⟨2023, 10, 3⟩ :=
  ⟨by decide, iso_round_trip ⟨2023, 10, 3⟩ (by decide)⟩

/-- C5 counterexample: a well-formed datetime string that is not a
canonical date string is decoded to its date part, not to none. -/
theorem parse_iso_time_suffix :
    parse_iso ("2023-10-03 05:30:00".data) = some ⟨2023, 10, 3⟩ ∧
      ¬ IsCanonicalDateString ("2023-10-03 05:30:00".data) := by
  constructor
  · decide
  · rintro ⟨d, hv, he⟩
    have h1 : (to_iso (some d)).length = 10 := isoDigits_length d
    rw [he] at h1
    exact absurd h1 (by decide)

/-- C5 amended: date decoding is total and never raises: every input
yields a date or the absent value; empty input yields the absent value;
input the ISO parser rejects, such as a malformed date string, yields
the absent value rather than an error; a well-formed datetime string
such as a canonical date followed by a separator and a time-of-day
yields its date component instead of the absent value; and every decoded
value is a valid calendar date. -/
theorem parse_iso_total :
    parse_iso [] = none ∧
    parse_iso ("not a date".data) = none ∧
    parse_iso ("2023-10-03T05:30".data) = some ⟨2023, 10, 3⟩ ∧
    ∀ (s : List Char) (d : PDate), parse_iso s = some d → d.Valid := by
  refine ⟨rfl, by decide, by decide, ?_⟩
  intro s d h
  unfold parse_iso at h
  by_cases h1 : s = []
  · rw [if_pos h1] at h
    exact absurd h (by simp)
  · rw [if_neg h1] at h
    cases hp : parseDate10 (s.take 10) with
    | none =>
      rw [hp] at h
      simp at h
    | some d0 =>
      rw [hp] at h
      simp only [Option.some_bind] at h
      have hval := (parseDate10_sound hp).1
      split_ifs at h with h2 h3
      · exact (Option.some.inj h) ▸ hval
      · exact (Option.some.inj h) ▸ hval

/-- C5 amended witness: the decode at the canonical string of 2023-10-03
succeeds and yields a valid date. -/
theorem parse_iso_total_witness :
    parse_iso ("2023-10-03".data) = some ⟨2023, 10, 3⟩ ∧ PDate.Valid ⟨2023, 10, 3⟩ :=
  ⟨by decide, parse_iso_total.2.2.2 ("2023-10-03".data) ⟨2023, 10, 3⟩ (by decide)⟩

/-- Characters removed by Python `str.strip()` (the ASCII whitespace set;
the Unicode spaces Python also strips do not occur in this program's
data). -/
def isPySpace (c : Char) : Bool :=
  c == ' ' || c == '\t' || c == '\n' || c == '\r' || c == '\x0b' || c == '\x0c'

/-- Python `str.strip()`: drop whitespace from both ends. -/
def pyStrip (cs : List Char) : List Char :=
  ((cs.dropWhile isPySpace).reverse.dropWhile isPySpace).reverse

/-- Embedding of `mask_name` (src/app.py lines 174-185).  The guard
`not name or pd.isna(name) or not str(name).strip()` collapses, for the
string-or-absent inputs that occur, to: absent, empty, or
whitespace-only input yields the em dash. -/
def mask_name (name : Option (List Char)) : List Char :=
  match name with
  | none => ['—']
  | some cs =>
    if cs = [] ∨ pyStrip cs = [] then ['—']
    else
      if (pyStrip cs).length ≤ 2 then (pyStrip cs).take 1 ++ ['*']
      else if (pyStrip cs).length ≤ 4 then
        (pyStrip cs).take 1 ++ ['*', '*'] ++ (pyStrip cs).drop ((pyStrip cs).length - 1)
      else
        (pyStrip cs).take 2 ++ ['*', '*', '*'] ++ (pyStrip cs).drop ((pyStrip cs).length - 2)

/-- C6: the masking transform matches the spec's piecewise definition on
every non-empty trimmed name, together with the worked examples and the
absent/empty cases. -/
theorem mask_name_spec :
    mask_name (some ("Ali".data)) = "A**i".data ∧
    mask_name (some ("Mohammad".data)) = "Mo***ad".data ∧
    mask_name none = ['—'] ∧
    mask_name (some []) = ['—'] ∧
    ∀ cs : List Char, pyStrip cs ≠ [] →
      ((pyStrip cs).length ≤ 2 →
        mask_name (some cs) = (pyStrip cs).take 1 ++ ['*']) ∧
      (3 ≤ (pyStrip cs).length → (pyStrip cs).length ≤ 4 →
        mask_name (some cs) = (pyStrip cs).take 1 ++ ['*', '*']
          ++ (pyStrip cs).drop ((pyStrip cs).length - 1)) ∧
      (4 < (pyStrip cs).length →
        mask_name (some cs) = (pyStrip cs).take 2 ++ ['*', '*', '*']
          ++ (pyStrip cs).drop ((pyStrip cs).length - 2)) := by
  refine ⟨by decide, by decide, rfl, by decide, ?_⟩
  intro cs hne
  have hcs : ¬(cs = [] ∨ pyStrip cs = []) := by
    rintro (rfl | h)
    · exact hne rfl
    · exact hne h
  refine ⟨?_, ?_, ?_⟩
  · intro h2
    simp only [mask_name]
    rw [if_neg hcs, if_pos h2]
  · intro h3 h4
    simp only [mask_name]
    rw [if_neg hcs, if_neg (by omega), if_pos h4]
  · intro h5
    simp only [mask_name]
    rw [if_neg hcs, if_neg (by omega), if_neg (by omega)]

/-- C6 witness at the long-name branch for the name Mohammad. -/
theorem mask_name_spec_witness :
    mask_name (some ("Mohammad".data)) = (pyStrip ("Mohammad".data)).take 2 ++ ['*', '*', '*']
      ++ (pyStrip ("Mohammad".data)).drop ((pyStrip ("Mohammad".data)).length - 2) :=
  (mask_name_spec.2.2.2.2 ("Mohammad".data) (by decide)).2.2 (by decide)

/-- C10: for names whose trimmed forms are longer than four characters,
the mask depends only on the first two and last two trimmed characters,
and always has length seven, so it hides the name's length and middle. -/
theorem mask_name_hides (a b : List Char)
    (ha : 4 < (pyStrip a).length) (hb : 4 < (pyStrip b).length)
    (h2 : (pyStrip a).take 2 = (pyStrip b).take 2)
    (h3 : (pyStrip a).drop ((pyStrip a).length - 2)
      = (pyStrip b).drop ((pyStrip b).length - 2)) :
    mask_name (some a) = mask_name (some b) ∧ (mask_name (some a)).length = 7 := by
  have hna : ¬(a = [] ∨ pyStrip a = []) := by
    rintro (rfl | h)
    · exact absurd ha (by decide)
    · rw [h] at ha
      exact absurd ha (by decide)
  have hnb : ¬(b = [] ∨ pyStrip b = []) := by
    rintro (rfl | h)
    · exact absurd hb (by decide)
    · rw [h] at hb
      exact absurd hb (by decide)
  have ea : mask_name (some a) = (pyStrip a).take 2 ++ ['*', '*', '*']
      ++ (pyStrip a).drop ((pyStrip a).length - 2) := by
    simp only [mask_name]
    rw [if_neg hna, if_neg (by omega), if_neg (by omega)]
  have eb : mask_name (some b) = (pyStrip b).take 2 ++ ['*', '*', '*']
      ++ (pyStrip b).drop ((pyStrip b).length - 2) := by
    simp only [mask_name]
    rw [if_neg hnb, if_neg (by omega), if_neg (by omega)]
  constructor
  · rw [ea, eb, h2, h3]
  · rw [ea]
    have l1 : ((pyStrip a).take 2).length = 2 := by
      rw [List.length_take]
      omega
    have l2 : ((pyStrip a).drop ((pyStrip a).length - 2)).length = 2 := by
      rw [List.length_drop]
      omega
    simp [List.length_append, l1, l2]

/-- C10 witness at two names sharing first and last two characters. -/
theorem mask_name_hides_witness :
    4 < (pyStrip ("Mohammad".data)).length ∧
      mask_name (some ("Mohammad".data)) = mask_name (some ("Mountainhead".data)) ∧
      (mask_name (some ("Mohammad".data))).length = 7 :=
  ⟨by decide, mask_name_hides ("Mohammad".data) ("Mountainhead".data)
    (by decide) (by decide) (by decide) (by decide)⟩

/-- Numeric value of a decimal digit sequence. -/
def natOfDigits (cs : List Char) : Nat :=
  cs.foldl (fun acc c => 10 * acc + digVal c) 0

/-- Embedding of Python `int(str)` as used on reference numbers:
whitespace is stripped, an optional sign is allowed, and the rest must be
a non-empty digit sequence; anything else raises (modeled as `none`).
Underscore digit separators, which Python also accepts, are
conservatively rejected; no reference number in the program has one. -/
def pyInt (cs : List Char) : Option Int :=
  match pyStrip cs with
  | '+' :: rest =>
    if rest ≠ [] ∧ rest.all isDig then some ((natOfDigits rest : Nat) : Int) else none
  | '-' :: rest =>
    if rest ≠ [] ∧ rest.all isDig then some (-((natOfDigits rest : Nat) : Int)) else none
  | t => if t ≠ [] ∧ t.all isDig then some ((natOfDigits t : Nat) : Int) else none

/-- Embedding of `ref_to_int` inside `load_df` (src/app.py lines
133-137): `int(ref)` when `ref` is non-empty with non-blank content,
with any exception swallowed to 0; otherwise 0. -/
def ref_to_int (ref : List Char) : Int :=
  if ref ≠ [] ∧ pyStrip ref ≠ [] then (pyInt ref).getD 0 else 0

/-- A stored appointment row, as in the `appointments` table of
src/app.py lines 16-26 (every column is TEXT). -/
structure Row where
  id : List Char
  name : List Char
  reference_no : List Char
  apply_date : List Char
  received_date : List Char
  interview_date : List Char
  created_at : List Char
deriving DecidableEq

/-- A row of the dataframe `load_df` produces: the three date columns
parsed, and the derived wait columns.  (`created_at` is re-parsed only
for display and kept as text here.) -/
structure LoadedRow where
  id : List Char
  name : List Char
  reference_no : List Char
  apply_date : Option PDate
  received_date : Option PDate
  interview_date : Option PDate
  created_at : List Char
  wait_months : Option Int
  wait_days : Option Int
deriving DecidableEq

/-- Per-row processing of `load_df` (src/app.py lines 116-129): parse the
date columns and derive the wait columns from apply and interview dates. -/
def loadRow (r : Row) : LoadedRow :=
  ⟨r.id, r.name, r.reference_no,
   parse_iso r.apply_date, parse_iso r.received_date, parse_iso r.interview_date,
   r.created_at,
   (calculate_wait_time (parse_iso r.apply_date) (parse_iso r.interview_date)).1,
   (calculate_wait_time (parse_iso r.apply_date) (parse_iso r.interview_date)).2⟩

/-- The descending order on the integer reference key used by
`df.sort_values` with `ascending` false (src/app.py lines 139-141). -/
def refOrder (a b : LoadedRow) : Prop :=
  ref_to_int b.reference_no ≤ ref_to_int a.reference_no

instance : DecidableRel refOrder :=
  fun a b => Int.decLe _ _

instance : IsTotal LoadedRow refOrder :=
  ⟨fun a b => le_total (ref_to_int b.reference_no) (ref_to_int a.reference_no)⟩

instance : IsTrans LoadedRow refOrder :=
  ⟨fun a b c hab hbc => le_trans hbc hab⟩

/-- Embedding of `load_df` (src/app.py lines 113-143): process every
stored row, then sort descending by the integer reference key.  pandas
`sort_values` leaves the order of equal keys unspecified; `insertionSort`
realises one such descending arrangement. -/
def load_df (rows : List Row) : List LoadedRow :=
  List.insertionSort refOrder (rows.map loadRow)

/-- C3: the ordering engine returns a permutation of the processed
records in which every record's integer reference key is at least the key
of every later record, and empty, whitespace-only or non-numeric
reference numbers get key 0. -/
theorem load_df_sorted (rows : List Row) :
    (load_df rows).Perm (rows.map loadRow) ∧
    List.Pairwise (fun a b => ref_to_int b.reference_no ≤ ref_to_int a.reference_no)
      (load_df rows) ∧
    ∀ ref : List Char, (ref = [] ∨ pyStrip ref = [] ∨ pyInt ref = none) → ref_to_int ref = 0 := by
  refine ⟨List.perm_insertionSort refOrder _, List.sorted_insertionSort refOrder _, ?_⟩
  intro ref h
  unfold ref_to_int
  rcases h with h | h | h
  · rw [if_neg]
    rintro ⟨h1, h2⟩
    exact h1 h
  · rw [if_neg]
    rintro ⟨h1, h2⟩
    exact h2 h
  · split_ifs with hc
    · rw [h]
      rfl
    · rfl

/-- C3 witness: a sorted two-row store and a non-numeric reference. -/
theorem load_df_sorted_witness :
    ref_to_int (" abc ".data) = 0 ∧
      List.Pairwise (fun a b => ref_to_int b.reference_no ≤ ref_to_int a.reference_no)
        (load_df [⟨"a".data, [], "5".data, [], [], [], []⟩,
                  ⟨"b".data, [], "1999".data, [], [], [], []⟩]) :=
  ⟨(load_df_sorted []).2.2 (" abc ".data) (Or.inr (Or.inr (by decide))),
   (load_df_sorted _).2.1⟩

/-- Embedding of `insert_row` (src/app.py lines 145-160): append one row
with trimmed name and reference and encoded dates; the fresh uuid and the
UTC timestamp are values supplied by the environment. -/
def insert_row (db : List Row) (name ref : List Char)
    (apply_d recv_d int_d : Option PDate) (newId now : List Char) : List Row :=
  db ++ [⟨newId, pyStrip name, pyStrip ref,
    (if apply_d.isSome then to_iso apply_d else []),
    (if recv_d.isSome then to_iso recv_d else []),
    (if int_d.isSome then to_iso int_d else []), now⟩]

/-- Embedding of the add-appointment submit handler (src/app.py lines
449-454): reject with a human-readable message when the trimmed reference
number is empty, otherwise insert exactly one row; the result is the new
store paired with the error message, if any. -/
def add_form_submit (db : List Row) (name reference_no : List Char)
    (apply_d recv_d int_d : Option PDate) (newId now : List Char) :
    List Row × Option (List Char) :=
  if pyStrip reference_no = [] then (db, some ("Reference Number is required".data))
  else (insert_row db name reference_no apply_d recv_d int_d newId now, none)

/-- C9: creation is atomic: a blank trimmed reference number is rejected
with a message and the store is unchanged; otherwise exactly one row is
appended, its name and reference trimmed of surrounding whitespace. -/
theorem add_form_atomic (db : List Row) (name reference_no : List Char)
    (apply_d recv_d int_d : Option PDate) (newId now : List Char) :
    (pyStrip reference_no = [] →
      add_form_submit db name reference_no apply_d recv_d int_d newId now
        = (db, some ("Reference Number is required".data))) ∧
    (pyStrip reference_no ≠ [] →
      add_form_submit db name reference_no apply_d recv_d int_d newId now
        = (db ++ [⟨newId, pyStrip name, pyStrip reference_no,
            (if apply_d.isSome then to_iso apply_d else []),
            (if recv_d.isSome then to_iso recv_d else []),
            (if int_d.isSome then to_iso int_d else []), now⟩], none)) := by
  constructor
  · intro h
    unfold add_form_submit
    rw [if_pos h]
  · intro h
    unfold add_form_submit insert_row
    rw [if_neg h]

/-- C9 witness: one rejected and one accepted submission. -/
theorem add_form_atomic_witness :
    (add_form_submit [] ("  Ali ".data) ("  ".data) none none none ("id1".data) ("t1".data)
        = ([], some ("Reference Number is required".data))) ∧
    (add_form_submit [] ("  Ali ".data) (" 1999 ".data) none none none ("id1".data) ("t1".data)
        = ([⟨"id1".data, pyStrip ("  Ali ".data), pyStrip (" 1999 ".data),
            (if (none : Option PDate).isSome then to_iso none else []),
            (if (none : Option PDate).isSome then to_iso none else []),
            (if (none : Option PDate).isSome then to_iso none else []), "t1".data⟩], none)) :=
  ⟨(add_form_atomic [] ("  Ali ".data) ("  ".data) none none none ("id1".data)
      ("t1".data)).1 (by decide),
   (add_form_atomic [] ("  Ali ".data) (" 1999 ".data) none none none ("id1".data)
      ("t1".data)).2 (by decide)⟩
